import Mathlib

/-!
Shallow embedding of the markethub products router (Express/Node source):
the sponsored-search pipeline (price parsing, offer normalization,
lowest-price reduction), the cache-aside product list, and the per-user
CRUD handlers.  JavaScript numbers are idealized as rationals (ℚ); JSON
(de)serialization of a product list is idealized as the identity; `null`
and `undefined` are both modelled by `Option.none` (the source only ever
distinguishes them from real values, never from each other).
-/

/-! ## Price Parser

Source: `parseFloat(String(priceRaw).replace(/[^0-9.\-]/g, ''))`,
guarded by `Number.isNaN`.  The strip keeps digits, dots and minus signs,
so the string handed to `parseFloat` never contains an exponent marker or
whitespace; `jsParseFloat` therefore models the exponent-free,
no-leading-whitespace fragment of ECMAScript `parseFloat`: an optional
sign, then the longest prefix that is digits, optionally followed by a
dot and more digits; an empty numeric prefix is NaN, modelled as `none`. -/

def natOfDigits (cs : List Char) : ℕ :=
  cs.foldl (fun a c => 10 * a + (c.toNat - '0'.toNat)) 0

def parseUnsigned (cs : List Char) : Option ℚ :=
  let intDigits := cs.takeWhile Char.isDigit
  let rest := cs.dropWhile Char.isDigit
  match rest with
  | '.' :: rest2 =>
    let fracDigits := rest2.takeWhile Char.isDigit
    if intDigits.isEmpty ∧ fracDigits.isEmpty then none
    else some ((natOfDigits intDigits : ℚ) +
      (natOfDigits fracDigits : ℚ) / 10 ^ fracDigits.length)
  | _ => if intDigits.isEmpty then none else some (natOfDigits intDigits)

def jsParseFloat (cs : List Char) : Option ℚ :=
  match cs with
  | [] => none
  | c :: rest =>
    if c = '-' then (parseUnsigned rest).map (fun q => -q)
    else if c = '+' then parseUnsigned rest
    else parseUnsigned (c :: rest)

/-- The character class kept by `replace(/[^0-9.\-]/g, '')`. -/
def keepChar (c : Char) : Bool :=
  c.isDigit || c = '.' || c = '-'

def stripNonPrice (cs : List Char) : List Char :=
  cs.filter keepChar

/-- The Price Parser on a string input: strip, then `parseFloat`,
with NaN mapped to `none` (the source leaves `price = null`). -/
def parsePriceStr (s : String) : Option ℚ :=
  jsParseFloat (stripNonPrice s.toList)

/-! ## JavaScript primitive values and truthiness

The provider payload fields are duck-typed; the route reads string fields
(title/url/seller candidates) and price fields that may be a
currency-formatted string (`price`) or a bare number (`extracted_price`).
An absent field (`undefined`) and `null` are both `none`. -/

inductive PrimVal where
  | pstr (s : String)
  | pnum (q : ℚ)
deriving DecidableEq, Repr

/-- JavaScript truthiness of an optional string field:
`undefined`/`null` and the empty string are falsy. -/
def truthyS : Option String → Bool
  | none => false
  | some s => s ≠ ""

/-- JavaScript truthiness of an optional string-or-number field:
`undefined`/`null`, the empty string and the number 0 are falsy. -/
def truthyP : Option PrimVal → Bool
  | none => false
  | some (.pstr s) => s ≠ ""
  | some (.pnum q) => q ≠ 0

/-- `a || b` on optional string fields. -/
def jsOrS (a b : Option String) : Option String :=
  if truthyS a then a else b

/-- `a || b` on optional string-or-number fields. -/
def jsOrP (a b : Option PrimVal) : Option PrimVal :=
  if truthyP a then a else b

/-- Decimal rendering of a rational, mirroring `String(n)` for the finite
JavaScript numbers this route can see: an IEEE double is `m / 2^e`, so its
reduced denominator always divides a power of ten and the exact-decimal
branch below applies.  (JavaScript would switch to exponent notation for
magnitudes ≥ 1e21 or < 1e-6; rationals with a non-10-smooth denominator
cannot arise from doubles; both fall to a bare `num/den` rendering.) -/
def numToString (q : ℚ) : String :=
  let sign := if q < 0 then "-" else ""
  let n := q.num.natAbs
  let d := q.den
  match (List.range 64).find? (fun k => d ∣ 10 ^ k) with
  | some k =>
    let scaled := n * 10 ^ k / d
    if k = 0 then sign ++ toString scaled
    else
      let frac := scaled % 10 ^ k
      let fracStr := toString frac
      let pad := String.mk (List.replicate (k - fracStr.length) '0')
      sign ++ toString (scaled / 10 ^ k) ++ "." ++ pad ++ fracStr
  | none => sign ++ toString n ++ "/" ++ toString d

/-- `String(v)` on a string-or-number value. -/
def primToString : PrimVal → String
  | .pstr s => s
  | .pnum q => numToString q

/-- The Price Parser applied to a raw candidate value
(`parseFloat(String(priceRaw).replace(...))` with the NaN guard). -/
def parsePrim (v : PrimVal) : Option ℚ :=
  jsParseFloat (stripNonPrice (primToString v).toList)

/-! ## Offer Normalizer

Source, inside `results.map`:
```
const priceRaw = r.price || r.extracted_price || r['price'] || null;
let price = null;
if (priceRaw !== undefined && priceRaw !== null) {
  const parsed = parseFloat(String(priceRaw).replace(/[^0-9.\-]/g, ''));
  if (!Number.isNaN(parsed)) price = parsed;
}
return { title: r.title || r.product_title || r.name || '',
         url: r.link || r.product_link || r.offer_link || r.source || '',
         seller: r.source || r.merchant || r.store || '',
         price, raw: r };
``` -/

structure RawRecord where
  title : Option String := none
  product_title : Option String := none
  name : Option String := none
  link : Option String := none
  product_link : Option String := none
  offer_link : Option String := none
  source : Option String := none
  merchant : Option String := none
  store : Option String := none
  price : Option PrimVal := none
  extracted_price : Option PrimVal := none
deriving DecidableEq, Repr

structure Offer where
  title : String
  url : String
  seller : String
  price : Option ℚ
  raw : RawRecord
deriving DecidableEq, Repr

def normalizeOffer (r : RawRecord) : Offer :=
  let priceRaw := jsOrP (jsOrP (jsOrP r.price r.extracted_price) r.price) none
  let price := match priceRaw with
    | none => none
    | some v => parsePrim v
  { title := (jsOrS (jsOrS (jsOrS r.title r.product_title) r.name) (some "")).getD ""
    url := (jsOrS (jsOrS (jsOrS (jsOrS r.link r.product_link) r.offer_link)
        r.source) (some "")).getD ""
    seller := (jsOrS (jsOrS (jsOrS r.source r.merchant) r.store) (some "")).getD ""
    price := price
    raw := r }

/-! ## Lowest-Price Reducer

Source:
```
const lowestPrice = items.reduce((acc, it) => {
  if (it.price === null || it.price === undefined) return acc;
  return acc === null ? it.price : Math.min(acc, it.price);
}, null);
``` -/

def lowStep (acc : Option ℚ) (p : Option ℚ) : Option ℚ :=
  match p with
  | none => acc
  | some q => match acc with
    | none => some q
    | some a => some (min a q)

def lowestPrice (l : List (Option ℚ)) : Option ℚ :=
  l.foldl lowStep none

/-! ## Data model: Product, store, cache

`Product` mirrors the Mongoose model as used by this router: user-scoped,
with a numeric current price, an append-only price history (insertion
order chronological, so the most recent entry is the last), a view
counter in `metadata`, and a creation timestamp used for list ordering.
The document store is a list of products; Mongo `_id` uniqueness is not
baked into the type, so the single-document operations (`findOne`,
`findOneAndUpdate`, `findOneAndDelete`) act on the first match. -/

structure HistEntry where
  price : ℚ
  date : ℕ
deriving DecidableEq, Repr

structure Product where
  id : ℕ
  name : String
  url : String
  platform : String
  targetPrice : ℚ
  currentPrice : ℚ
  userId : ℕ
  priceHistory : List HistEntry
  views : ℕ
  createdAt : ℕ
deriving DecidableEq, Repr

/-- The cache maps a key string to a serialized product list with the
TTL (in seconds) it was stored with.  `SysState.cache = none` models an
unavailable cache backend (`getRedisClient()` returned nothing). -/
structure CacheEntry where
  value : List Product
  ttl : ℕ
deriving DecidableEq, Repr

abbrev CacheMap := List (String × CacheEntry)

def cacheGet (c : CacheMap) (k : String) : Option CacheEntry :=
  (c.find? (fun kv => kv.1 = k)).map (fun kv => kv.2)

def cacheSet (c : CacheMap) (k : String) (e : CacheEntry) : CacheMap :=
  (k, e) :: c.filter (fun kv => kv.1 ≠ k)

def cacheDel (c : CacheMap) (k : String) : CacheMap :=
  c.filter (fun kv => kv.1 ≠ k)

structure SysState where
  products : List Product
  cache : Option CacheMap
deriving DecidableEq, Repr

def cacheKey (u : ℕ) : String := "products:" ++ toString u

/-- `redis.del` on the acting user's key, skipped when the cache backend
is unavailable (`if (redis) await redis.del(...)`). -/
def invalidate (st : SysState) (u : ℕ) : SysState :=
  match st.cache with
  | none => st
  | some c => { st with cache := some (cacheDel c (cacheKey u)) }

/-- Insertion sort by `createdAt` descending, modelling
`.sort({ createdAt: -1 })`. -/
def insertByCreatedDesc (p : Product) : List Product → List Product
  | [] => [p]
  | q :: qs =>
    if q.createdAt ≤ p.createdAt then p :: q :: qs
    else q :: insertByCreatedDesc p qs

def sortByCreatedDesc : List Product → List Product
  | [] => []
  | p :: ps => insertByCreatedDesc p (sortByCreatedDesc ps)

/-- `Product.find({ userId }).sort({ createdAt: -1 }).limit(100)`. -/
def storeQuery (st : SysState) (u : ℕ) : List Product :=
  (sortByCreatedDesc (st.products.filter (fun p => p.userId = u))).take 100

/-- Update the first product satisfying `pred` (Mongo updates one
document per `findOneAndUpdate`/`save`). -/
def updateFirst (pred : Product → Bool) (f : Product → Product) :
    List Product → List Product
  | [] => []
  | p :: ps => if pred p then f p :: ps else p :: updateFirst pred f ps

/-- Remove the first product satisfying `pred` (`findOneAndDelete`). -/
def removeFirst (pred : Product → Bool) : List Product → List Product
  | [] => []
  | p :: ps => if pred p then ps else p :: removeFirst pred ps

/-! ## List handler (`GET /`, cache-aside read) -/

structure ListResp where
  products : List Product
  /-- Models the presence of the `cached: true` tag in the JSON body:
  the source returns `{products, cached: true}` on a hit and a plain
  `{products}` otherwise. -/
  cached : Bool
deriving DecidableEq, Repr

def listHandler (st : SysState) (u : ℕ) : ListResp × SysState :=
  match st.cache with
  | some c =>
    match cacheGet c (cacheKey u) with
    | some e => ({ products := e.value, cached := true }, st)
    | none =>
      let prods := storeQuery st u
      ({ products := prods, cached := false },
       { st with cache := some (cacheSet c (cacheKey u) ⟨prods, 300⟩) })
  | none =>
    ({ products := storeQuery st u, cached := false }, st)

/-! ## Create handler (`POST /`)

`scrapePrice` lives in `../utils/scraper`, outside this router file.
Modelled from the spec: the Scrape Gateway is a black box producing
either `{price: number}` or a failure signal; failure and an absent
result are both non-exceptional and reach the handler as a nullish
`priceData`, which the handler's `priceData ? ... : ...` and
`priceData?.price || 0` branches absorb. -/

structure PriceData where
  price : ℚ
deriving DecidableEq, Repr

/-- `priceData?.price || 0`: optional chaining then numeric truthiness
(`undefined` and `0` both fall to the default `0`). -/
def priceOrZero (pd : Option PriceData) : ℚ :=
  match pd with
  | none => 0
  | some d => if d.price ≠ 0 then d.price else 0

structure CreateBody where
  name : String
  url : String
  platform : String
  targetPrice : ℚ
deriving DecidableEq, Repr

structure CreateResp where
  status : ℕ
  message : String
  product : Product
deriving DecidableEq, Repr

def createHandler (st : SysState) (u : ℕ) (body : CreateBody)
    (scraped : Option PriceData) (newId now : ℕ) : CreateResp × SysState :=
  let product : Product :=
    { id := newId
      name := body.name
      url := body.url
      platform := body.platform
      targetPrice := body.targetPrice
      currentPrice := priceOrZero scraped
      userId := u
      priceHistory := match scraped with
        | some d => [⟨d.price, now⟩]
        | none => []
      views := 0
      createdAt := now }
  let st1 : SysState := { st with products := st.products ++ [product] }
  ({ status := 201, message := "Product added successfully", product := product },
   invalidate st1 u)

/-! ## Read-one handler (`GET /:id`) -/

structure OneResp where
  status : ℕ
  product : Option Product
deriving DecidableEq, Repr

def matchesIdUser (i u : ℕ) (p : Product) : Bool :=
  p.id = i && p.userId = u

def viewHandler (st : SysState) (u : ℕ) (i : ℕ) : OneResp × SysState :=
  match st.products.find? (matchesIdUser i u) with
  | none => ({ status := 404, product := none }, st)
  | some p =>
    let p2 := { p with views := p.views + 1 }
    let newProds :=
      updateFirst (matchesIdUser i u) (fun q => { q with views := q.views + 1 }) st.products
    ({ status := 200, product := some p2 }, { st with products := newProds })

/-! ## Update handler (`PUT /:id`)

`findOneAndUpdate({_id, userId}, { $set: req.body }, { new: true })`:
the request body is an arbitrary client-controlled partial field set
merged verbatim over the document, so EVERY mutable schema path is
settable — including `userId` (ownership reassignment), `views` and
`createdAt` — not just the fields the UI sends.  Only the immutable
Mongo `_id` is excluded (`$set` on `_id` is rejected by the store).
Absent fields are left alone. -/

structure UpdateBody where
  name : Option String := none
  url : Option String := none
  platform : Option String := none
  targetPrice : Option ℚ := none
  currentPrice : Option ℚ := none
  userId : Option ℕ := none
  priceHistory : Option (List HistEntry) := none
  views : Option ℕ := none
  createdAt : Option ℕ := none
deriving DecidableEq, Repr

def applySet (b : UpdateBody) (p : Product) : Product :=
  { p with
    name := b.name.getD p.name
    url := b.url.getD p.url
    platform := b.platform.getD p.platform
    targetPrice := b.targetPrice.getD p.targetPrice
    currentPrice := b.currentPrice.getD p.currentPrice
    userId := b.userId.getD p.userId
    priceHistory := b.priceHistory.getD p.priceHistory
    views := b.views.getD p.views
    createdAt := b.createdAt.getD p.createdAt }

def updateHandler (st : SysState) (u : ℕ) (i : ℕ) (b : UpdateBody) :
    OneResp × SysState :=
  match st.products.find? (matchesIdUser i u) with
  | none => ({ status := 404, product := none }, st)
  | some p =>
    let st1 : SysState :=
      { st with products := updateFirst (matchesIdUser i u) (applySet b) st.products }
    ({ status := 200, product := some (applySet b p) }, invalidate st1 u)

/-! ## Delete handler (`DELETE /:id`) -/

def deleteHandler (st : SysState) (u : ℕ) (i : ℕ) : OneResp × SysState :=
  match st.products.find? (matchesIdUser i u) with
  | none => ({ status := 404, product := none }, st)
  | some p =>
    let st1 : SysState := { st with products := removeFirst (matchesIdUser i u) st.products }
    ({ status := 200, product := some p }, invalidate st1 u)

/-! ## Sponsored search handler (`GET /sponsored`)

The axios call is the one external invocation; its outcome (a provider
response, or a rejection whose `error?.message` may be absent) is passed
in as a parameter.  The handler result is paired with a flag recording
whether control reached the external call, mirroring the source's
control flow (`return` before the `axios.get` line means no call). -/

structure ProviderResp where
  shopping_results : Option (List RawRecord)
deriving DecidableEq, Repr

inductive FetchOutcome where
  | ok (resp : ProviderResp)
  | err (detail : Option String)
deriving DecidableEq, Repr

inductive SponsoredBody where
  /-- `{ message }` — the 400 missing-query and 500 missing-key bodies. -/
  | msg (message : String)
  /-- `{ message, error }` — the catch-branch body, carrying
  `error?.message` when available. -/
  | msgErr (message : String) (error : Option String)
  /-- `{ items, lowestPrice }` — the success body. -/
  | payload (items : List Offer) (lowestPrice : Option ℚ)
deriving DecidableEq, Repr

structure SponsoredResp where
  status : ℕ
  body : SponsoredBody
deriving DecidableEq, Repr

def sponsoredHandler (qRaw : Option String) (apiKey : Option String)
    (fetch : FetchOutcome) : SponsoredResp × Bool :=
  let q := ((jsOrS qRaw (some "")).getD "").trim
  if q = "" then
    (⟨400, .msg "Missing query parameter `q`"⟩, false)
  else if ¬ truthyS apiKey then
    (⟨500, .msg "SERPAPI_API_KEY not configured on server"⟩, false)
  else
    match fetch with
    | .err detail =>
      (⟨500, .msgErr "Error fetching sponsored results" detail⟩, true)
    | .ok resp =>
      let results := resp.shopping_results.getD []
      let items := results.map normalizeOffer
      let low := lowestPrice (items.map Offer.price)
      (⟨200, .payload items low⟩, true)

/-! ## Router registration order and dispatch

The source registers, in order: `GET /sponsored` (no `auth` middleware —
the comment says it is "kept unauthenticated for local/dev convenience"),
then the authenticated `GET /`, `POST /`, `GET /:id`, `PUT /:id`,
`DELETE /:id`, and finally a second, authenticated `GET /sponsored`
(dead: Express dispatches to the first registered match). -/

inductive PathPat where
  | exact (s : String)
  | param
deriving DecidableEq, Repr

inductive HandlerTag where
  | sponsoredOpen
  | list
  | create
  | readOne
  | update
  | delete
  | sponsoredAuth
deriving DecidableEq, Repr

structure Route where
  method : String
  pattern : PathPat
  requiresAuth : Bool
  tag : HandlerTag
deriving DecidableEq, Repr

def routes : List Route :=
  [ ⟨"GET", .exact "/sponsored", false, .sponsoredOpen⟩
  , ⟨"GET", .exact "/", true, .list⟩
  , ⟨"POST", .exact "/", true, .create⟩
  , ⟨"GET", .param, true, .readOne⟩
  , ⟨"PUT", .param, true, .update⟩
  , ⟨"DELETE", .param, true, .delete⟩
  , ⟨"GET", .exact "/sponsored", true, .sponsoredAuth⟩ ]

def pathMatches (pat : PathPat) (path : String) : Bool :=
  match pat with
  | .exact s => path = s
  | .param => path ≠ "/" && path.startsWith "/"

def dispatch (method path : String) : Option Route :=
  routes.find? (fun r => r.method = method && pathMatches r.pattern path)

/-! ## C1 invariant -/

/-- `currentPrice` equals the price of the most recent (last) history
entry whenever the history is non-empty. -/
def priceInv (p : Product) : Prop :=
  ∀ e, p.priceHistory.getLast? = some e → p.currentPrice = e.price

def priceInvB (p : Product) : Bool :=
  match p.priceHistory.getLast? with
  | none => true
  | some e => p.currentPrice = e.price

instance (p : Product) : Decidable (priceInv p) :=
  decidable_of_iff (priceInvB p = true) (by
    unfold priceInvB priceInv
    cases h : p.priceHistory.getLast? with
    | none => simp
    | some e => simp)

def storeInv (st : SysState) : Prop :=
  ∀ p ∈ st.products, priceInv p

/-! ## Auxiliary definitions used only in theorem statements -/

/-- Worker for `digitRuns`: `acc` is the current digit run, reversed;
an empty `acc` means no run is open. -/
def digitRunsAux : List Char → List Char → List (List Char)
  | [], acc => if acc.isEmpty then [] else [acc.reverse]
  | c :: cs, acc =>
    if c.isDigit then digitRunsAux cs (c :: acc)
    else if acc.isEmpty then digitRunsAux cs []
    else acc.reverse :: digitRunsAux cs []

/-- The maximal runs of digit characters of a string, used to state the
Price Parser claim about "numeric runs" of the input. -/
def digitRuns (l : List Char) : List (List Char) :=
  digitRunsAux l []

/-- The Price Parser applied to an optional candidate (absent stays
absent), used to state the normalizer's price-resolution claim. -/
def parseCand : Option PrimVal → Option ℚ
  | none => none
  | some v => parsePrim v

/-- Descending creation order, the order of `.sort({ createdAt: -1 })`. -/
def createdGE (a b : Product) : Prop := b.createdAt ≤ a.createdAt

/-! # Theorems -/

/-! ## Lowest-Price Reducer lemmas -/

theorem lowestAux_some (l : List (Option ℚ)) (a : ℚ) :
    l.foldl lowStep (some a) = some ((l.filterMap id).foldl min a) := by
  induction l generalizing a with
  | nil => rfl
  | cons x t ih =>
    cases x with
    | none => simpa [lowStep] using ih a
    | some q => simpa [lowStep] using ih (min a q)

theorem foldl_min_mem (l : List ℚ) (a : ℚ) : l.foldl min a ∈ a :: l := by
  induction l generalizing a with
  | nil => simp
  | cons q t ih =>
    simp only [List.foldl_cons]
    rcases List.mem_cons.mp (ih (min a q)) with h1 | h1
    · rw [h1]
      rcases min_choice a q with hm | hm
      · rw [hm]
        exact List.mem_cons_self _ _
      · rw [hm]
        exact List.mem_cons_of_mem _ (List.mem_cons_self _ _)
    · exact List.mem_cons_of_mem _ (List.mem_cons_of_mem _ h1)

theorem foldl_min_le (l : List ℚ) (a : ℚ) : ∀ x ∈ a :: l, l.foldl min a ≤ x := by
  induction l generalizing a with
  | nil => simp
  | cons q t ih =>
    intro x hx
    simp only [List.foldl_cons]
    have hh := ih (min a q)
    rcases List.mem_cons.mp hx with h1 | h1
    · rw [h1]
      exact le_trans (hh _ (List.mem_cons_self _ _)) (min_le_left a q)
    · rcases List.mem_cons.mp h1 with h2 | h2
      · rw [h2]
        exact le_trans (hh _ (List.mem_cons_self _ _)) (min_le_right a q)
      · exact hh x (List.mem_cons_of_mem _ h2)

theorem mem_filterMap_id {l : List (Option ℚ)} {q : ℚ} :
    q ∈ l.filterMap id ↔ some q ∈ l := by
  simp [List.mem_filterMap]

theorem lowestPrice_none_iff (l : List (Option ℚ)) :
    lowestPrice l = none ↔ ∀ x ∈ l, x = none := by
  induction l with
  | nil => simp [lowestPrice]
  | cons x t ih =>
    cases x with
    | none =>
      have h0 : lowestPrice (none :: t) = lowestPrice t := by
        simp [lowestPrice, lowStep]
      rw [h0, ih]
      simp
    | some q =>
      have h0 : lowestPrice (some q :: t) =
          some ((t.filterMap id).foldl min q) := by
        simp only [lowestPrice, List.foldl_cons, lowStep]
        exact lowestAux_some t q
      rw [h0]
      simp

theorem lowestPrice_some_iff (l : List (Option ℚ)) (m : ℚ) :
    lowestPrice l = some m ↔ (some m ∈ l ∧ ∀ q, some q ∈ l → m ≤ q) := by
  induction l with
  | nil => simp [lowestPrice]
  | cons x t ih =>
    cases x with
    | none =>
      have h0 : lowestPrice (none :: t) = lowestPrice t := by
        simp [lowestPrice, lowStep]
      rw [h0, ih]
      simp
    | some q =>
      have h0 : lowestPrice (some q :: t) =
          some ((t.filterMap id).foldl min q) := by
        simp only [lowestPrice, List.foldl_cons, lowStep]
        exact lowestAux_some t q
      rw [h0]
      constructor
      · intro h
        have hFm : (t.filterMap id).foldl min q = m := by injection h
        constructor
        · rcases List.mem_cons.mp (foldl_min_mem (t.filterMap id) q) with h1 | h1
          · rw [← hFm, h1]
            exact List.mem_cons_self _ _
          · rw [← hFm]
            exact List.mem_cons_of_mem _ (mem_filterMap_id.mp h1)
        · intro r hr
          rw [← hFm]
          rcases List.mem_cons.mp hr with h1 | h1
          · have hrq : r = q := by injection h1
            rw [hrq]
            exact foldl_min_le (t.filterMap id) q q (List.mem_cons_self _ _)
          · exact foldl_min_le (t.filterMap id) q r
              (List.mem_cons_of_mem _ (mem_filterMap_id.mpr h1))
      · rintro ⟨h1, h2⟩
        have hle : m ≤ (t.filterMap id).foldl min q := by
          rcases List.mem_cons.mp (foldl_min_mem (t.filterMap id) q) with h3 | h3
          · rw [h3]
            exact h2 q (List.mem_cons_self _ _)
          · exact h2 _ (List.mem_cons_of_mem _ (mem_filterMap_id.mp h3))
        have hge : (t.filterMap id).foldl min q ≤ m := by
          rcases List.mem_cons.mp h1 with h3 | h3
          · have hmq : m = q := by injection h3
            rw [hmq]
            exact foldl_min_le (t.filterMap id) q q (List.mem_cons_self _ _)
          · exact foldl_min_le (t.filterMap id) q m
              (List.mem_cons_of_mem _ (mem_filterMap_id.mpr h3))
        exact congrArg some (le_antisymm hge hle)

/-- C5: the Lowest-Price Reducer returns `none` on an empty sequence and
on an all-null sequence; otherwise its result is exactly the minimum of
the non-null prices (characterized order-independently by membership and
lower-boundedness), and the result is invariant under permutation of the
input.  The fold is a total function, so it cannot throw. -/
theorem claim_C5_lowest_price_reducer :
    lowestPrice [] = none
    ∧ (∀ l : List (Option ℚ), (∀ x ∈ l, x = none) → lowestPrice l = none)
    ∧ (∀ (l : List (Option ℚ)) (m : ℚ),
        lowestPrice l = some m ↔ (some m ∈ l ∧ ∀ q, some q ∈ l → m ≤ q))
    ∧ (∀ l1 l2 : List (Option ℚ), l1.Perm l2 → lowestPrice l1 = lowestPrice l2) := by
  refine ⟨rfl, ?_, lowestPrice_some_iff, ?_⟩
  · intro l h
    exact (lowestPrice_none_iff l).mpr h
  · intro l1 l2 hp
    cases h : lowestPrice l2 with
    | none =>
      rw [lowestPrice_none_iff] at h ⊢
      exact fun x hx => h x (hp.mem_iff.mp hx)
    | some m =>
      rw [lowestPrice_some_iff] at h ⊢
      exact ⟨hp.mem_iff.mpr h.1, fun q hq => h.2 q (hp.mem_iff.mp hq)⟩

/-- Concrete instantiation of `claim_C5_lowest_price_reducer`. -/
theorem claim_C5_witness :
    lowestPrice [none, none] = none
    ∧ lowestPrice [some 3, none, some 2] = some 2
    ∧ lowestPrice [none, some 2, some 3] = lowestPrice [some 3, none, some 2] := by
  refine ⟨claim_C5_lowest_price_reducer.2.1 [none, none] (by decide), ?_, ?_⟩
  · refine (claim_C5_lowest_price_reducer.2.2.1 [some 3, none, some 2] 2).mpr ⟨by decide, ?_⟩
    intro q hq
    simp only [List.mem_cons] at hq
    rcases hq with h | h | h | h
    · rw [Option.some_inj.mp h]
      norm_num
    · cases h
    · rw [Option.some_inj.mp h]
    · cases h
  · exact claim_C5_lowest_price_reducer.2.2.2 _ _ (by decide)

/-! ## Price Parser lemmas -/

theorem jsParseFloat_cons (c : Char) (rest : List Char) :
    jsParseFloat (c :: rest) =
      if c = '-' then (parseUnsigned rest).map (fun q => -q)
      else if c = '+' then parseUnsigned rest
      else parseUnsigned (c :: rest) := rfl

theorem digitRunsAux_flatten (l : List Char) :
    ∀ acc, (digitRunsAux l acc).flatten = acc.reverse ++ l.filter Char.isDigit := by
  induction l with
  | nil =>
    intro acc
    cases acc <;> simp [digitRunsAux]
  | cons c cs ih =>
    intro acc
    by_cases hdig : c.isDigit
    · rw [digitRunsAux]
      simp only [if_pos hdig]
      rw [ih (c :: acc), List.filter_cons_of_pos hdig]
      simp
    · rw [digitRunsAux]
      simp only [if_neg hdig]
      rw [List.filter_cons_of_neg (by simpa using hdig)]
      by_cases hacc : acc.isEmpty
      · rw [if_pos hacc, ih []]
        rw [List.isEmpty_iff.mp hacc]
      · rw [if_neg hacc]
        simp only [List.flatten_cons]
        rw [ih []]
        simp

theorem digitRuns_flatten (l : List Char) :
    (digitRuns l).flatten = l.filter Char.isDigit := by
  simpa using digitRunsAux_flatten l []

theorem digitRunsAux_runs (l : List Char) :
    ∀ acc, (∀ c ∈ acc, c.isDigit) →
      ∀ r ∈ digitRunsAux l acc, r ≠ [] ∧ ∀ c ∈ r, c.isDigit := by
  induction l with
  | nil =>
    intro acc hacc r hr
    rw [digitRunsAux] at hr
    by_cases he : acc.isEmpty
    · rw [if_pos he] at hr
      cases hr
    · rw [if_neg he] at hr
      rcases List.mem_cons.mp hr with h1 | h1
      · subst h1
        refine ⟨?_, ?_⟩
        · intro h
          exact he (by simpa [List.isEmpty_iff] using congrArg List.reverse h)
        · intro c hc
          exact hacc c (List.mem_reverse.mp hc)
      · cases h1
  | cons c cs ih =>
    intro acc hacc r hr
    rw [digitRunsAux] at hr
    by_cases hdig : c.isDigit
    · rw [if_pos hdig] at hr
      refine ih (c :: acc) ?_ r hr
      intro x hx
      rcases List.mem_cons.mp hx with h1 | h1
      · rw [h1]
        exact hdig
      · exact hacc x h1
    · rw [if_neg hdig] at hr
      by_cases he : acc.isEmpty
      · rw [if_pos he] at hr
        exact ih [] (by simp) r hr
      · rw [if_neg he] at hr
        rcases List.mem_cons.mp hr with h1 | h1
        · subst h1
          refine ⟨?_, ?_⟩
          · intro h
            exact he (by simpa [List.isEmpty_iff] using congrArg List.reverse h)
          · intro x hx
            exact hacc x (List.mem_reverse.mp hx)
        · exact ih [] (by simp) r h1

theorem parseUnsigned_all_digits (cs : List Char) (hne : cs ≠ [])
    (hd : ∀ c ∈ cs, c.isDigit) :
    parseUnsigned cs = some ((natOfDigits cs : ℚ)) := by
  have htake : cs.takeWhile Char.isDigit = cs := List.takeWhile_eq_self_iff.mpr hd
  have hdrop : cs.dropWhile Char.isDigit = [] := List.dropWhile_eq_nil_iff.mpr hd
  unfold parseUnsigned
  rw [htake, hdrop]
  simp [List.isEmpty_iff, hne]

theorem parseUnsigned_no_digits (cs : List Char)
    (hd : ∀ c ∈ cs, ¬ c.isDigit) :
    parseUnsigned cs = none := by
  have htake : cs.takeWhile Char.isDigit = [] := by
    cases cs with
    | nil => rfl
    | cons c rest =>
      rw [List.takeWhile_cons_of_neg]
      simpa using hd c (List.mem_cons_self _ _)
  have hdrop : cs.dropWhile Char.isDigit = cs := by
    cases cs with
    | nil => rfl
    | cons c rest =>
      rw [List.dropWhile_cons_of_neg]
      simpa using hd c (List.mem_cons_self _ _)
  unfold parseUnsigned
  rw [htake, hdrop]
  cases cs with
  | nil => rfl
  | cons c rest =>
    by_cases hc : c = '.'
    · subst hc
      have hrest : rest.takeWhile Char.isDigit = [] := by
        cases rest with
        | nil => rfl
        | cons d ds =>
          rw [List.takeWhile_cons_of_neg]
          simpa using hd d (List.mem_cons_of_mem _ (List.mem_cons_self _ _))
      simp [hrest]
    · cases c with
      | mk v h =>
        simp only []
        split
        · next heq =>
          simp_all
        · simp

theorem jsParseFloat_all_digits (cs : List Char) (hne : cs ≠ [])
    (hd : ∀ c ∈ cs, c.isDigit) :
    jsParseFloat cs = some ((natOfDigits cs : ℚ)) := by
  cases cs with
  | nil => exact absurd rfl hne
  | cons d ds =>
    have hdd : d.isDigit := hd d (List.mem_cons_self _ _)
    have h1 : d ≠ '-' := by
      intro h
      rw [h] at hdd
      exact absurd hdd (by decide)
    have h2 : d ≠ '+' := by
      intro h
      rw [h] at hdd
      exact absurd hdd (by decide)
    rw [jsParseFloat_cons, if_neg h1, if_neg h2]
    exact parseUnsigned_all_digits (d :: ds) (by simp) hd

theorem jsParseFloat_no_digits (cs : List Char)
    (hd : ∀ c ∈ cs, ¬ c.isDigit) :
    jsParseFloat cs = none := by
  cases cs with
  | nil => rfl
  | cons c rest =>
    have hrest : ∀ x ∈ rest, ¬ x.isDigit :=
      fun x hx => hd x (List.mem_cons_of_mem _ hx)
    rw [jsParseFloat_cons]
    by_cases h1 : c = '-'
    · rw [if_pos h1, parseUnsigned_no_digits rest hrest]
      rfl
    · rw [if_neg h1]
      by_cases h2 : c = '+'
      · rw [if_pos h2]
        exact parseUnsigned_no_digits rest hrest
      · rw [if_neg h2]
        exact parseUnsigned_no_digits (c :: rest) hd

/-- C6 requires the parsed value of a one-numeric-run string to be that
run's numeric interpretation, but a dot or minus sign elsewhere in the
string survives the strip and corrupts the `parseFloat` step: `"a.5"`
has the single digit run `"5"` (value 5) yet parses to 0.5. -/
theorem claim_C6_counterexample :
    digitRuns "a.5".toList = [['5']]
    ∧ natOfDigits ['5'] = 5
    ∧ parsePriceStr "a.5" = some (1 / 2)
    ∧ parsePriceStr "a.5" ≠ some ((natOfDigits ['5'] : ℚ)) := by
  refine ⟨by decide, by decide, by with_unfolding_all rfl, ?_⟩
  have h5 : natOfDigits ['5'] = 5 := by decide
  rw [h5, (by with_unfolding_all rfl : parsePriceStr "a.5" = some (1 / 2))]
  intro hc
  have hval := Option.some_inj.mp hc
  norm_num at hval

/-- C6 amended: for a string with exactly one numeric run and no `.` or
`-` characters anywhere, the parsed value is that run's numeric
interpretation; for an input with no digit characters the result is
`none`.  (The parser is a total Lean function, so it cannot raise; the
original claim's unrestricted one-run clause is refuted by
`claim_C6_counterexample`.) -/
theorem claim_C6_price_parser_amended :
    (∀ (s : String) (r : List Char), digitRuns s.toList = [r] →
      '.' ∉ s.toList → '-' ∉ s.toList →
      parsePriceStr s = some ((natOfDigits r : ℚ)))
    ∧ (∀ s : String, (∀ c ∈ s.toList, ¬ c.isDigit) → parsePriceStr s = none) := by
  constructor
  · intro s r hruns hdot hminus
    have hstrip : stripNonPrice s.toList = s.toList.filter Char.isDigit := by
      unfold stripNonPrice
      apply List.filter_congr
      intro a ha
      have h1 : a ≠ '.' := fun h => hdot (h ▸ ha)
      have h2 : a ≠ '-' := fun h => hminus (h ▸ ha)
      simp [keepChar, h1, h2]
    have hfil : s.toList.filter Char.isDigit = r := by
      rw [← digitRuns_flatten, hruns]
      simp
    have hmem : r ∈ digitRuns s.toList := by
      rw [hruns]
      exact List.mem_cons_self _ _
    have hr := digitRunsAux_runs s.toList [] (by simp) r hmem
    unfold parsePriceStr
    rw [hstrip, hfil]
    exact jsParseFloat_all_digits r hr.1 hr.2
  · intro s hd
    unfold parsePriceStr
    apply jsParseFloat_no_digits
    intro c hc
    exact hd c (List.mem_of_mem_filter hc)

/-- Concrete instantiation of `claim_C6_price_parser_amended`. -/
theorem claim_C6_amended_witness :
    parsePriceStr "$19" = some ((natOfDigits ['1', '9'] : ℚ))
    ∧ parsePriceStr "abc" = none :=
  ⟨claim_C6_price_parser_amended.1 "$19" ['1', '9'] (by decide) (by decide) (by decide),
   claim_C6_price_parser_amended.2 "abc" (by decide)⟩

/-! ## Offer Normalizer claims -/

/-- C7 says candidate resolution is first-PRESENT-wins, but the source
uses JavaScript `||`, which skips falsy values: a record whose `title`
field is present and equal to the empty string normalizes to the second
candidate `"B"`, not to the present first candidate. -/
theorem claim_C7_counterexample :
    ({ title := some "", product_title := some "B" } : RawRecord).title = some ""
    ∧ (normalizeOffer { title := some "", product_title := some "B" }).title = "B"
    ∧ "B" ≠ "" := by
  refine ⟨rfl, by with_unfolding_all rfl, by decide⟩

/-- C10: candidate selection is truthiness-, not presence-based — a
record whose `price` is the number 0 (and no other price candidate)
normalizes to a `null` price, is thereby excluded from the lowest-price
fold, and a present empty-string `title` falls through to the next
candidate. -/
theorem claim_C10_truthiness_selection :
    ({ price := some (.pnum 0) } : RawRecord).price = some (.pnum 0)
    ∧ (normalizeOffer { price := some (.pnum 0) }).price = none
    ∧ lowestPrice ([normalizeOffer { price := some (.pnum 0) }].map Offer.price) = none
    ∧ (normalizeOffer { title := some "", product_title := some "T" }).title = "T" := by
  refine ⟨rfl, by with_unfolding_all rfl, by with_unfolding_all rfl,
    by with_unfolding_all rfl⟩

/-- C7 amended: each normalized field is resolved by
first-present-AND-truthy-wins priority (a present empty string or zero
falls through, per `claim_C7_counterexample`): title from
{title, product_title, name} else `""`; url from
{link, product_link, offer_link, source} else `""`; seller from
{source, merchant, store} else `""`; price from the Price Parser applied
to the first truthy of {price, extracted_price} else `null`; and the raw
record is retained verbatim. -/
theorem claim_C7_offer_normalizer_amended (r : RawRecord) :
    ((truthyS r.title → (normalizeOffer r).title = r.title.getD "")
      ∧ (¬ truthyS r.title → truthyS r.product_title →
          (normalizeOffer r).title = r.product_title.getD "")
      ∧ (¬ truthyS r.title → ¬ truthyS r.product_title → truthyS r.name →
          (normalizeOffer r).title = r.name.getD "")
      ∧ (¬ truthyS r.title → ¬ truthyS r.product_title → ¬ truthyS r.name →
          (normalizeOffer r).title = ""))
    ∧ ((truthyS r.link → (normalizeOffer r).url = r.link.getD "")
      ∧ (¬ truthyS r.link → truthyS r.product_link →
          (normalizeOffer r).url = r.product_link.getD "")
      ∧ (¬ truthyS r.link → ¬ truthyS r.product_link → truthyS r.offer_link →
          (normalizeOffer r).url = r.offer_link.getD "")
      ∧ (¬ truthyS r.link → ¬ truthyS r.product_link → ¬ truthyS r.offer_link →
          truthyS r.source → (normalizeOffer r).url = r.source.getD "")
      ∧ (¬ truthyS r.link → ¬ truthyS r.product_link → ¬ truthyS r.offer_link →
          ¬ truthyS r.source → (normalizeOffer r).url = ""))
    ∧ ((truthyS r.source → (normalizeOffer r).seller = r.source.getD "")
      ∧ (¬ truthyS r.source → truthyS r.merchant →
          (normalizeOffer r).seller = r.merchant.getD "")
      ∧ (¬ truthyS r.source → ¬ truthyS r.merchant → truthyS r.store →
          (normalizeOffer r).seller = r.store.getD "")
      ∧ (¬ truthyS r.source → ¬ truthyS r.merchant → ¬ truthyS r.store →
          (normalizeOffer r).seller = ""))
    ∧ ((truthyP r.price → (normalizeOffer r).price = parseCand r.price)
      ∧ (¬ truthyP r.price → truthyP r.extracted_price →
          (normalizeOffer r).price = parseCand r.extracted_price)
      ∧ (¬ truthyP r.price → ¬ truthyP r.extracted_price →
          (normalizeOffer r).price = none))
    ∧ (normalizeOffer r).raw = r := by
  refine ⟨⟨?_, ?_, ?_, ?_⟩, ⟨?_, ?_, ?_, ?_, ?_⟩, ⟨?_, ?_, ?_, ?_⟩, ⟨?_, ?_, ?_⟩, rfl⟩
  · intro h1
    cases hp : r.title with
    | none => rw [hp] at h1; cases h1
    | some v => simp [normalizeOffer, jsOrS, hp, h1, hp ▸ h1]
  · intro h1 h2
    cases hp : r.product_title with
    | none => rw [hp] at h2; cases h2
    | some v => simp [normalizeOffer, jsOrS, hp, h1, h2, hp ▸ h2]
  · intro h1 h2 h3
    cases hp : r.name with
    | none => rw [hp] at h3; cases h3
    | some v => simp [normalizeOffer, jsOrS, hp, h1, h2, h3, hp ▸ h3]
  · intro h1 h2 h3
    simp [normalizeOffer, jsOrS, h1, h2, h3]
  · intro h1
    cases hp : r.link with
    | none => rw [hp] at h1; cases h1
    | some v => simp [normalizeOffer, jsOrS, hp, h1, hp ▸ h1]
  · intro h1 h2
    cases hp : r.product_link with
    | none => rw [hp] at h2; cases h2
    | some v => simp [normalizeOffer, jsOrS, hp, h1, h2, hp ▸ h2]
  · intro h1 h2 h3
    cases hp : r.offer_link with
    | none => rw [hp] at h3; cases h3
    | some v => simp [normalizeOffer, jsOrS, hp, h1, h2, h3, hp ▸ h3]
  · intro h1 h2 h3 h4
    cases hp : r.source with
    | none => rw [hp] at h4; cases h4
    | some v => simp [normalizeOffer, jsOrS, hp, h1, h2, h3, h4, hp ▸ h4]
  · intro h1 h2 h3 h4
    simp [normalizeOffer, jsOrS, h1, h2, h3, h4]
  · intro h1
    cases hp : r.source with
    | none => rw [hp] at h1; cases h1
    | some v => simp [normalizeOffer, jsOrS, hp, h1, hp ▸ h1]
  · intro h1 h2
    cases hp : r.merchant with
    | none => rw [hp] at h2; cases h2
    | some v => simp [normalizeOffer, jsOrS, hp, h1, h2, hp ▸ h2]
  · intro h1 h2 h3
    cases hp : r.store with
    | none => rw [hp] at h3; cases h3
    | some v => simp [normalizeOffer, jsOrS, hp, h1, h2, h3, hp ▸ h3]
  · intro h1 h2 h3
    simp [normalizeOffer, jsOrS, h1, h2, h3]
  · intro h1
    cases hp : r.price with
    | none => rw [hp] at h1; cases h1
    | some v => simp [normalizeOffer, jsOrP, parseCand, hp, h1, hp ▸ h1]
  · intro h1 h2
    cases hp : r.extracted_price with
    | none => rw [hp] at h2; cases h2
    | some v => simp [normalizeOffer, jsOrP, parseCand, hp, h1, h2, hp ▸ h2]
  · intro h1 h2
    simp [normalizeOffer, jsOrP, h1, h2]

/-- Concrete instantiation of `claim_C7_offer_normalizer_amended`. -/
theorem claim_C7_amended_witness :
    (normalizeOffer { title := some "A", product_title := some "B" }).title = "A"
    ∧ (normalizeOffer { price := some (.pstr "$12.50") }).price
        = parseCand (some (.pstr "$12.50")) :=
  ⟨(claim_C7_offer_normalizer_amended _).1.1 (by decide),
   (claim_C7_offer_normalizer_amended _).2.2.2.1.1 (by decide)⟩

/-! ## Store-scoping lemmas -/

theorem mem_updateFirst {pred : Product → Bool} {f : Product → Product} :
    ∀ {l : List Product} {p : Product}, p ∈ updateFirst pred f l →
      p ∈ l ∨ ∃ q ∈ l, pred q = true ∧ p = f q := by
  intro l
  induction l with
  | nil =>
    intro p hp
    cases hp
  | cons r rs ih =>
    intro p hp
    rw [updateFirst] at hp
    by_cases hr : pred r
    · rw [if_pos hr] at hp
      rcases List.mem_cons.mp hp with h1 | h1
      · right
        exact ⟨r, List.mem_cons_self _ _, hr, h1⟩
      · left
        exact List.mem_cons_of_mem _ h1
    · rw [if_neg hr] at hp
      rcases List.mem_cons.mp hp with h1 | h1
      · left
        rw [h1]
        exact List.mem_cons_self _ _
      · rcases ih h1 with h2 | ⟨q, hq, hpred, heq⟩
        · left
          exact List.mem_cons_of_mem _ h2
        · right
          exact ⟨q, List.mem_cons_of_mem _ hq, hpred, heq⟩

theorem mem_removeFirst {pred : Product → Bool} :
    ∀ {l : List Product} {p : Product}, p ∈ removeFirst pred l → p ∈ l := by
  intro l
  induction l with
  | nil =>
    intro p hp
    cases hp
  | cons r rs ih =>
    intro p hp
    rw [removeFirst] at hp
    by_cases hr : pred r
    · rw [if_pos hr] at hp
      exact List.mem_cons_of_mem _ hp
    · rw [if_neg hr] at hp
      rcases List.mem_cons.mp hp with h1 | h1
      · rw [h1]
        exact List.mem_cons_self _ _
      · exact List.mem_cons_of_mem _ (ih h1)

theorem mem_insertByCreatedDesc {p x : Product} :
    ∀ {l : List Product}, x ∈ insertByCreatedDesc p l → x = p ∨ x ∈ l := by
  intro l
  induction l with
  | nil =>
    intro hx
    rcases List.mem_cons.mp hx with h1 | h1
    · exact Or.inl h1
    · cases h1
  | cons q qs ih =>
    intro hx
    rw [insertByCreatedDesc] at hx
    by_cases hc : q.createdAt ≤ p.createdAt
    · rw [if_pos hc] at hx
      rcases List.mem_cons.mp hx with h1 | h1
      · exact Or.inl h1
      · exact Or.inr h1
    · rw [if_neg hc] at hx
      rcases List.mem_cons.mp hx with h1 | h1
      · exact Or.inr (by rw [h1]; exact List.mem_cons_self _ _)
      · rcases ih h1 with h2 | h2
        · exact Or.inl h2
        · exact Or.inr (List.mem_cons_of_mem _ h2)

theorem mem_sortByCreatedDesc {x : Product} :
    ∀ {l : List Product}, x ∈ sortByCreatedDesc l → x ∈ l := by
  intro l
  induction l with
  | nil =>
    intro hx
    cases hx
  | cons p ps ih =>
    intro hx
    rw [sortByCreatedDesc] at hx
    rcases mem_insertByCreatedDesc hx with h1 | h1
    · rw [h1]
      exact List.mem_cons_self _ _
    · exact List.mem_cons_of_mem _ (ih h1)

theorem storeQuery_scoped (st : SysState) (u : ℕ) :
    ∀ p ∈ storeQuery st u, p.userId = u := by
  intro p hp
  unfold storeQuery at hp
  have h1 := mem_sortByCreatedDesc (List.take_subset _ _ hp)
  have h2 := (List.mem_filter.mp h1).2
  simpa using h2

theorem matchesIdUser_eq {i u : ℕ} {p : Product}
    (h : matchesIdUser i u p = true) : p.id = i ∧ p.userId = u := by
  simpa [matchesIdUser] using h

theorem invalidate_products (st : SysState) (u : ℕ) :
    (invalidate st u).products = st.products := by
  unfold invalidate
  cases st.cache <;> rfl

/-- C4 requires every endpoint to run behind the authentication
collaborator, but the first registered sponsored route carries no auth
middleware, and Express dispatches `GET /sponsored` to it. -/
theorem claim_C4_counterexample :
    dispatch "GET" "/sponsored"
      = some ⟨"GET", PathPat.exact "/sponsored", false, HandlerTag.sponsoredOpen⟩
    ∧ (dispatch "GET" "/sponsored").map Route.requiresAuth = some false := by
  exact ⟨rfl, rfl⟩

theorem mem_updateFirst_of_not_pred {pred : Product → Bool}
    {f : Product → Product} :
    ∀ {l : List Product} {p : Product}, p ∈ l → pred p = false →
      p ∈ updateFirst pred f l := by
  intro l
  induction l with
  | nil =>
    intro p hp _
    cases hp
  | cons r rs ih =>
    intro p hp hnp
    rw [updateFirst]
    by_cases hr : pred r
    · rw [if_pos hr]
      rcases List.mem_cons.mp hp with h1 | h1
      · rw [h1] at hnp
        rw [hnp] at hr
        cases hr
      · exact List.mem_cons_of_mem _ h1
    · rw [if_neg hr]
      rcases List.mem_cons.mp hp with h1 | h1
      · rw [h1]
        exact List.mem_cons_self _ _
      · exact List.mem_cons_of_mem _ (ih h1 hnp)

theorem matchesIdUser_false_of_ne {i u : ℕ} {p : Product}
    (h : p.userId ≠ u) : matchesIdUser i u p = false := by
  simp [matchesIdUser]
  intro _
  exact h

/-- C4 amended: every route other than the first (unauthenticated,
dev-mode) sponsored route requires authentication, and the store
operations are identity-scoped as far as `$set: req.body` permits: list
queries and single-document reads return only the acting user's
products; create adds only a product owned by the acting user; delete
removes only the acting user's products; an update selects only a
document owned by the acting user and never modifies or removes another
user's existing product; and when the update body does not set `userId`,
the updated product still belongs to the acting user and no product of
another user appears that was not already stored.  (A body that does set
`userId` reassigns ownership of the acting user's own product — a
cross-user effect `$set: req.body` genuinely allows, so it is carved out
of the scoping statement.  The unauthenticated sponsored handler takes
no store state at all, so it cannot touch user data.) -/
theorem claim_C4_user_scoping_amended :
    (∀ rt ∈ routes, rt.tag ≠ HandlerTag.sponsoredOpen → rt.requiresAuth = true)
    ∧ (∀ (st : SysState) (u : ℕ), ∀ p ∈ storeQuery st u, p.userId = u)
    ∧ (∀ (st : SysState) (u i : ℕ) (p : Product),
        (viewHandler st u i).1.product = some p → p.userId = u)
    ∧ (∀ (st : SysState) (u i : ℕ) (p : Product),
        p ∈ ((viewHandler st u i).2).products → p.userId ≠ u → p ∈ st.products)
    ∧ (∀ (st : SysState) (u i : ℕ) (b : UpdateBody), ∀ p ∈ st.products,
        p.userId ≠ u → p ∈ ((updateHandler st u i b).2).products)
    ∧ (∀ (st : SysState) (u i : ℕ) (b : UpdateBody) (p : Product),
        b.userId = none →
        (updateHandler st u i b).1.product = some p → p.userId = u)
    ∧ (∀ (st : SysState) (u i : ℕ) (b : UpdateBody) (p : Product),
        b.userId = none →
        p ∈ ((updateHandler st u i b).2).products → p.userId ≠ u →
        p ∈ st.products)
    ∧ (∀ (st : SysState) (u i : ℕ) (p : Product),
        (deleteHandler st u i).1.product = some p → p.userId = u)
    ∧ (∀ (st : SysState) (u i : ℕ) (p : Product),
        p ∈ ((deleteHandler st u i).2).products → p ∈ st.products)
    ∧ (∀ (st : SysState) (u : ℕ) (body : CreateBody) (pd : Option PriceData)
        (idn now : ℕ) (p : Product),
        p ∈ ((createHandler st u body pd idn now).2).products →
        p.userId ≠ u → p ∈ st.products) := by
  refine ⟨by decide, storeQuery_scoped, ?_, ?_, ?_, ?_, ?_, ?_, ?_, ?_⟩
  · intro st u i p hp
    cases hfind : st.products.find? (matchesIdUser i u) with
    | none => simp [viewHandler, hfind] at hp
    | some q =>
      simp only [viewHandler, hfind] at hp
      have hq := (matchesIdUser_eq (List.find?_some hfind)).2
      rw [← Option.some_inj.mp hp]
      exact hq
  · intro st u i p hp hne
    cases hfind : st.products.find? (matchesIdUser i u) with
    | none =>
      simpa [viewHandler, hfind] using hp
    | some q =>
      simp only [viewHandler, hfind] at hp
      rcases mem_updateFirst hp with h1 | ⟨q2, hq2, hpred, heq⟩
      · exact h1
      · exact absurd (by rw [heq]; exact (matchesIdUser_eq hpred).2) hne
  · intro st u i b p hp hne
    cases hfind : st.products.find? (matchesIdUser i u) with
    | none =>
      simpa [updateHandler, hfind] using hp
    | some q =>
      simp only [updateHandler, hfind, invalidate_products]
      exact mem_updateFirst_of_not_pred hp (matchesIdUser_false_of_ne hne)
  · intro st u i b p hb hp
    cases hfind : st.products.find? (matchesIdUser i u) with
    | none => simp [updateHandler, hfind] at hp
    | some q =>
      simp only [updateHandler, hfind] at hp
      have hq := (matchesIdUser_eq (List.find?_some hfind)).2
      rw [← Option.some_inj.mp hp]
      show (applySet b q).userId = u
      simp [applySet, hb]
      exact hq
  · intro st u i b p hb hp hne
    cases hfind : st.products.find? (matchesIdUser i u) with
    | none =>
      simpa [updateHandler, hfind] using hp
    | some q =>
      simp only [updateHandler, hfind, invalidate_products] at hp
      rcases mem_updateFirst hp with h1 | ⟨q2, hq2, hpred, heq⟩
      · exact h1
      · refine absurd ?_ hne
        rw [heq]
        have hq2u := (matchesIdUser_eq hpred).2
        show (applySet b q2).userId = u
        simp [applySet, hb]
        exact hq2u
  · intro st u i p hp
    cases hfind : st.products.find? (matchesIdUser i u) with
    | none => simp [deleteHandler, hfind] at hp
    | some q =>
      simp only [deleteHandler, hfind] at hp
      have hq := (matchesIdUser_eq (List.find?_some hfind)).2
      rw [← Option.some_inj.mp hp]
      exact hq
  · intro st u i p hp
    cases hfind : st.products.find? (matchesIdUser i u) with
    | none =>
      simpa [deleteHandler, hfind] using hp
    | some q =>
      simp only [deleteHandler, hfind, invalidate_products] at hp
      exact mem_removeFirst hp
  · intro st u body pd idn now p hp hne
    simp only [createHandler, invalidate_products] at hp
    rcases List.mem_append.mp hp with h1 | h1
    · exact h1
    · have : p.userId = u := by
        rw [List.mem_singleton.mp h1]
      exact absurd this hne

/-- Concrete instantiation of `claim_C4_user_scoping_amended`. -/
theorem claim_C4_amended_witness :
    (Route.mk "GET" (PathPat.exact "/") true HandlerTag.list).requiresAuth = true
    ∧ ((⟨2, "n", "u", "p", 0, 0, 2, [], 0, 0⟩ : Product)
        ∈ (⟨[⟨2, "n", "u", "p", 0, 0, 2, [], 0, 0⟩], none⟩ : SysState).products) := by
  constructor
  · exact claim_C4_user_scoping_amended.1 _ (by decide) (by decide)
  · exact claim_C4_user_scoping_amended.2.2.2.2.2.2.2.2.2
      ⟨[⟨2, "n", "u", "p", 0, 0, 2, [], 0, 0⟩], none⟩ 1 ⟨"x", "y", "z", 0⟩ none 9 1
      ⟨2, "n", "u", "p", 0, 0, 2, [], 0, 0⟩ (List.mem_cons_self _ _) (by decide)

/-! ## Cache lemmas -/

theorem cacheGet_cacheDel (c : CacheMap) (k : String) :
    cacheGet (cacheDel c k) k = none := by
  unfold cacheGet cacheDel
  have hfind : List.find? (fun kv => kv.1 = k) (c.filter (fun kv => kv.1 ≠ k)) = none := by
    rw [List.find?_eq_none]
    intro kv hkv
    have h := (List.mem_filter.mp hkv).2
    simp at h ⊢
    exact h
  rw [hfind]
  rfl

theorem cacheGet_cacheSet (c : CacheMap) (k : String) (e : CacheEntry) :
    cacheGet (cacheSet c k e) k = some e := by
  unfold cacheGet cacheSet
  simp [List.find?]

theorem invalidate_cache_gone (st : SysState) (u : ℕ) :
    ∀ c, (invalidate st u).cache = some c → cacheGet c (cacheKey u) = none := by
  unfold invalidate
  cases hc : st.cache with
  | none =>
    intro c h
    rw [hc] at h
    cases h
  | some c0 =>
    intro c h
    have : some (cacheDel c0 (cacheKey u)) = some c := h
    rw [← Option.some_inj.mp this]
    exact cacheGet_cacheDel c0 (cacheKey u)

theorem priceOrZero_some (d : PriceData) : priceOrZero (some d) = d.price := by
  unfold priceOrZero
  by_cases h : d.price = 0
  · simp [h]
  · simp [h]

/-- C2: after every successful write (create, update, delete) for user
`u`, the cache entry for `u`'s key is gone (when a cache backend is
present), and a list read from a state whose cache misses (or is absent)
returns the query of the authoritative store with no cached tag. -/
theorem claim_C2_cache_write_invalidation :
    (∀ (st : SysState) (u : ℕ) (body : CreateBody) (pd : Option PriceData)
        (idn now : ℕ) (c : CacheMap),
        ((createHandler st u body pd idn now).2).cache = some c →
        cacheGet c (cacheKey u) = none)
    ∧ (∀ (st : SysState) (u i : ℕ) (b : UpdateBody) (c : CacheMap),
        (updateHandler st u i b).1.status = 200 →
        ((updateHandler st u i b).2).cache = some c →
        cacheGet c (cacheKey u) = none)
    ∧ (∀ (st : SysState) (u i : ℕ) (c : CacheMap),
        (deleteHandler st u i).1.status = 200 →
        ((deleteHandler st u i).2).cache = some c →
        cacheGet c (cacheKey u) = none)
    ∧ (∀ (st : SysState) (u : ℕ), st.cache = none →
        (listHandler st u).1 = ⟨storeQuery st u, false⟩)
    ∧ (∀ (st : SysState) (u : ℕ) (c : CacheMap),
        st.cache = some c → cacheGet c (cacheKey u) = none →
        (listHandler st u).1 = ⟨storeQuery st u, false⟩) := by
  refine ⟨?_, ?_, ?_, ?_, ?_⟩
  · intro st u body pd idn now c hc
    exact invalidate_cache_gone _ u c hc
  · intro st u i b c hstatus hc
    cases hfind : st.products.find? (matchesIdUser i u) with
    | none => simp [updateHandler, hfind] at hstatus
    | some q =>
      simp only [updateHandler, hfind] at hc
      exact invalidate_cache_gone _ u c hc
  · intro st u i c hstatus hc
    cases hfind : st.products.find? (matchesIdUser i u) with
    | none => simp [deleteHandler, hfind] at hstatus
    | some q =>
      simp only [deleteHandler, hfind] at hc
      exact invalidate_cache_gone _ u c hc
  · intro st u hc
    simp [listHandler, hc]
  · intro st u c hc hget
    simp [listHandler, hc, hget]

/-- Concrete instantiation of `claim_C2_cache_write_invalidation`. -/
theorem claim_C2_witness :
    cacheGet
      (((createHandler
          ⟨[], some [(cacheKey 1, ⟨[], 300⟩)]⟩ 1 ⟨"n", "u", "p", 0⟩ none 4 9).2).cache.getD [])
      (cacheKey 1) = none := by
  refine claim_C2_cache_write_invalidation.1
    ⟨[], some [(cacheKey 1, ⟨[], 300⟩)]⟩ 1 ⟨"n", "u", "p", 0⟩ none 4 9 _ ?_
  with_unfolding_all rfl

/-- C3: product creation always succeeds with status 201; a failed or
absent scrape yields currentPrice 0 and an empty history; a successful
scrape with price p yields currentPrice p and the one-entry history
[(p, now)].  The scrape collaborator (spec-modelled, see `createHandler`)
signals failure by an absent result, not an exception, so creation never
fails because scraping failed. -/
theorem claim_C3_scrape_failure_nonfatal :
    ∀ (st : SysState) (u : ℕ) (body : CreateBody) (pd : Option PriceData)
      (idn now : ℕ),
      (createHandler st u body pd idn now).1.status = 201
      ∧ (pd = none →
          (createHandler st u body pd idn now).1.product.currentPrice = 0
          ∧ (createHandler st u body pd idn now).1.product.priceHistory = [])
      ∧ (∀ d, pd = some d →
          (createHandler st u body pd idn now).1.product.currentPrice = d.price
          ∧ (createHandler st u body pd idn now).1.product.priceHistory
              = [⟨d.price, now⟩]) := by
  intro st u body pd idn now
  refine ⟨rfl, ?_, ?_⟩
  · intro h
    subst h
    exact ⟨rfl, rfl⟩
  · intro d h
    subst h
    constructor
    · simp [createHandler, priceOrZero_some]
    · rfl

/-- Concrete instantiation of `claim_C3_scrape_failure_nonfatal`. -/
theorem claim_C3_witness :
    (createHandler ⟨[], none⟩ 1 ⟨"n", "u", "p", 10⟩ none 4 9).1.product.currentPrice = 0
    ∧ (createHandler ⟨[], none⟩ 1 ⟨"n", "u", "p", 10⟩ none 4 9).1.product.priceHistory = []
    ∧ (createHandler ⟨[], none⟩ 1 ⟨"n", "u", "p", 10⟩
        (some ⟨19.99⟩) 4 9).1.product.currentPrice = 19.99
    ∧ (createHandler ⟨[], none⟩ 1 ⟨"n", "u", "p", 10⟩
        (some ⟨19.99⟩) 4 9).1.product.priceHistory = [⟨19.99, 9⟩] := by
  refine ⟨?_, ?_, ?_, ?_⟩
  · exact ((claim_C3_scrape_failure_nonfatal ⟨[], none⟩ 1 ⟨"n", "u", "p", 10⟩ none 4 9).2.1 rfl).1
  · exact ((claim_C3_scrape_failure_nonfatal ⟨[], none⟩ 1 ⟨"n", "u", "p", 10⟩ none 4 9).2.1 rfl).2
  · exact ((claim_C3_scrape_failure_nonfatal ⟨[], none⟩ 1 ⟨"n", "u", "p", 10⟩
      (some ⟨19.99⟩) 4 9).2.2 ⟨19.99⟩ rfl).1
  · exact ((claim_C3_scrape_failure_nonfatal ⟨[], none⟩ 1 ⟨"n", "u", "p", 10⟩
      (some ⟨19.99⟩) 4 9).2.2 ⟨19.99⟩ rfl).2

/-! ## Sortedness of the list query -/

theorem sorted_insertByCreatedDesc {l : List Product} (p : Product)
    (h : List.Sorted createdGE l) :
    List.Sorted createdGE (insertByCreatedDesc p l) := by
  induction l with
  | nil => simp [insertByCreatedDesc]
  | cons q qs ih =>
    rw [List.sorted_cons] at h
    rw [insertByCreatedDesc]
    by_cases hc : q.createdAt ≤ p.createdAt
    · rw [if_pos hc, List.sorted_cons]
      refine ⟨?_, List.sorted_cons.mpr h⟩
      intro b hb
      rcases List.mem_cons.mp hb with h1 | h1
      · rw [h1]
        exact hc
      · exact le_trans (h.1 b h1) hc
    · rw [if_neg hc, List.sorted_cons]
      refine ⟨?_, ih h.2⟩
      intro b hb
      rcases mem_insertByCreatedDesc hb with h1 | h1
      · rw [h1]
        exact le_of_lt (lt_of_not_le hc)
      · exact h.1 b h1

theorem sorted_sortByCreatedDesc (l : List Product) :
    List.Sorted createdGE (sortByCreatedDesc l) := by
  induction l with
  | nil => simp [sortByCreatedDesc]
  | cons p ps ih =>
    rw [sortByCreatedDesc]
    exact sorted_insertByCreatedDesc p ih

theorem sorted_storeQuery (st : SysState) (u : ℕ) :
    List.Sorted createdGE (storeQuery st u) := by
  unfold storeQuery
  exact List.Pairwise.sublist (List.take_sublist _ _)
    (sorted_sortByCreatedDesc _)

/-- C8: a list read serves the deserialized cache entry tagged
`cached: true` on a hit (leaving the state untouched); on a miss it
returns the store query (creation-time descending, at most 100 records),
populates the cache under the user's key with a 300-second expiry, and
carries no cached tag; with no cache backend it reads the store
directly.  The cached tag is true only on a hit. -/
theorem claim_C8_list_read :
    ∀ (st : SysState) (u : ℕ),
      (∀ c e, st.cache = some c → cacheGet c (cacheKey u) = some e →
        (listHandler st u).1 = ⟨e.value, true⟩ ∧ (listHandler st u).2 = st)
      ∧ (∀ c, st.cache = some c → cacheGet c (cacheKey u) = none →
        (listHandler st u).1 = ⟨storeQuery st u, false⟩
        ∧ (listHandler st u).2.cache
            = some (cacheSet c (cacheKey u) ⟨storeQuery st u, 300⟩)
        ∧ cacheGet (cacheSet c (cacheKey u) ⟨storeQuery st u, 300⟩) (cacheKey u)
            = some ⟨storeQuery st u, 300⟩)
      ∧ (st.cache = none →
        (listHandler st u).1 = ⟨storeQuery st u, false⟩ ∧ (listHandler st u).2 = st)
      ∧ List.Sorted createdGE (storeQuery st u)
      ∧ (storeQuery st u).length ≤ 100 := by
  intro st u
  refine ⟨?_, ?_, ?_, sorted_storeQuery st u, ?_⟩
  · intro c e hc hget
    constructor <;> simp [listHandler, hc, hget]
  · intro c hc hget
    refine ⟨?_, ?_, cacheGet_cacheSet c (cacheKey u) _⟩ <;> simp [listHandler, hc, hget]
  · intro hc
    constructor <;> simp [listHandler, hc]
  · unfold storeQuery
    exact List.length_take_le _ _

/-- Concrete instantiation of `claim_C8_list_read`. -/
theorem claim_C8_witness :
    (listHandler ⟨[], some [(cacheKey 1, ⟨[⟨5, "x", "y", "z", 1, 2, 1, [], 0, 0⟩], 300⟩)]⟩ 1).1
      = ⟨[⟨5, "x", "y", "z", 1, 2, 1, [], 0, 0⟩], true⟩
    ∧ (listHandler ⟨[], some []⟩ 1).1 = ⟨storeQuery ⟨[], some []⟩ 1, false⟩ := by
  constructor
  · exact ((claim_C8_list_read _ 1).1 _ ⟨[⟨5, "x", "y", "z", 1, 2, 1, [], 0, 0⟩], 300⟩
      rfl (by with_unfolding_all rfl)).1
  · exact ((claim_C8_list_read _ 1).2.1 [] rfl rfl).1

/-- C9: the sponsored-search handler rejects an empty or missing query
with a 400 client error before any external call; with a non-empty query
and a missing (or empty) credential it returns a 500 configuration error,
still without calling out; an external-call failure surfaces as a 500
fetch error carrying the upstream detail when available; a provider
response with no result collection yields items = [] and
lowestPrice = null; and the three error bodies are pairwise distinct. -/
theorem claim_C9_sponsored_errors :
    (∀ (qRaw apiKey : Option String) (fetch : FetchOutcome),
      (((jsOrS qRaw (some "")).getD "").trim = "" →
        sponsoredHandler qRaw apiKey fetch
          = (⟨400, .msg "Missing query parameter `q`"⟩, false))
      ∧ (((jsOrS qRaw (some "")).getD "").trim ≠ "" → ¬ truthyS apiKey →
        sponsoredHandler qRaw apiKey fetch
          = (⟨500, .msg "SERPAPI_API_KEY not configured on server"⟩, false))
      ∧ (∀ detail, ((jsOrS qRaw (some "")).getD "").trim ≠ "" → truthyS apiKey →
        fetch = .err detail →
        sponsoredHandler qRaw apiKey fetch
          = (⟨500, .msgErr "Error fetching sponsored results" detail⟩, true))
      ∧ (∀ resp, ((jsOrS qRaw (some "")).getD "").trim ≠ "" → truthyS apiKey →
        fetch = .ok resp → resp.shopping_results = none →
        sponsoredHandler qRaw apiKey fetch = (⟨200, .payload [] none⟩, true)))
    ∧ (SponsoredBody.msg "Missing query parameter `q`"
        ≠ SponsoredBody.msg "SERPAPI_API_KEY not configured on server")
    ∧ (∀ detail, SponsoredBody.msg "Missing query parameter `q`"
        ≠ SponsoredBody.msgErr "Error fetching sponsored results" detail)
    ∧ (∀ detail, SponsoredBody.msg "SERPAPI_API_KEY not configured on server"
        ≠ SponsoredBody.msgErr "Error fetching sponsored results" detail) := by
  refine ⟨?_, by decide, fun d => by simp, fun d => by simp⟩
  intro qRaw apiKey fetch
  refine ⟨?_, ?_, ?_, ?_⟩
  · intro h
    simp [sponsoredHandler, h]
  · intro h1 h2
    simp [sponsoredHandler, h1, h2]
  · intro detail h1 h2 h3
    subst h3
    simp [sponsoredHandler, h1, h2]
  · intro resp h1 h2 h3 h4
    subst h3
    simp [sponsoredHandler, h1, h2, h4, lowestPrice]

/-- Concrete instantiation of `claim_C9_sponsored_errors`. -/
theorem claim_C9_witness :
    sponsoredHandler (some "") (some "key") (.err (some "boom"))
      = (⟨400, .msg "Missing query parameter `q`"⟩, false)
    ∧ sponsoredHandler (some "tv") none (.err (some "boom"))
      = (⟨500, .msg "SERPAPI_API_KEY not configured on server"⟩, false)
    ∧ sponsoredHandler (some "tv") (some "key") (.err (some "boom"))
      = (⟨500, .msgErr "Error fetching sponsored results" (some "boom")⟩, true)
    ∧ sponsoredHandler (some "tv") (some "key") (.ok ⟨none⟩)
      = (⟨200, .payload [] none⟩, true) := by
  refine ⟨?_, ?_, ?_, ?_⟩
  · exact (claim_C9_sponsored_errors.1 (some "") (some "key") (.err (some "boom"))).1
      (by with_unfolding_all rfl)
  · exact (claim_C9_sponsored_errors.1 (some "tv") none (.err (some "boom"))).2.1
      (by with_unfolding_all decide) (by decide)
  · exact (claim_C9_sponsored_errors.1 (some "tv") (some "key")
      (.err (some "boom"))).2.2.1 (some "boom") (by with_unfolding_all decide)
      (by decide) rfl
  · exact (claim_C9_sponsored_errors.1 (some "tv") (some "key")
      (.ok ⟨none⟩)).2.2.2 ⟨none⟩ (by with_unfolding_all decide) (by decide) rfl rfl

/-- C1 requires the currentPrice/history invariant to survive EVERY
operation including an arbitrary partial update, but `PUT /:id` applies
`$set: req.body` verbatim: updating `currentPrice` alone (here to 5, on
a product whose last history price is 19.99) succeeds with status 200
and leaves the stored product violating the invariant. -/
theorem claim_C1_counterexample :
    (updateHandler
        ((createHandler ⟨[], none⟩ 1 ⟨"n", "u", "p", 50⟩ (some ⟨19.99⟩) 7 10).2)
        1 7 { currentPrice := some 5 }).1.status = 200
    ∧ ((updateHandler
        ((createHandler ⟨[], none⟩ 1 ⟨"n", "u", "p", 50⟩ (some ⟨19.99⟩) 7 10).2)
        1 7 { currentPrice := some 5 }).2.products.map priceInvB) = [false] := by
  refine ⟨by with_unfolding_all rfl, by with_unfolding_all rfl⟩

/-- C1 amended: the invariant "currentPrice equals the price of the most
recent history entry whenever the history is non-empty" is established by
creation (with exactly one scraped-price entry on a successful scrape)
and preserved by view, by delete, and by any update whose partial field
set touches neither `currentPrice` nor `priceHistory`; an update that
does touch them can break it (`claim_C1_counterexample`). -/
theorem claim_C1_price_history_amended :
    (∀ (st : SysState) (u : ℕ) (body : CreateBody) (pd : Option PriceData)
        (idn now : ℕ), storeInv st →
        storeInv ((createHandler st u body pd idn now).2)
        ∧ (∀ d, pd = some d →
            (createHandler st u body pd idn now).1.product.priceHistory
              = [⟨d.price, now⟩]
            ∧ (createHandler st u body pd idn now).1.product.currentPrice = d.price))
    ∧ (∀ (st : SysState) (u i : ℕ), storeInv st → storeInv ((viewHandler st u i).2))
    ∧ (∀ (st : SysState) (u i : ℕ), storeInv st → storeInv ((deleteHandler st u i).2))
    ∧ (∀ (st : SysState) (u i : ℕ) (b : UpdateBody),
        b.currentPrice = none → b.priceHistory = none →
        storeInv st → storeInv ((updateHandler st u i b).2)) := by
  refine ⟨?_, ?_, ?_, ?_⟩
  · intro st u body pd idn now h
    constructor
    · intro p hp
      simp only [createHandler, invalidate_products] at hp
      rcases List.mem_append.mp hp with h1 | h1
      · exact h p h1
      · rw [List.mem_singleton.mp h1]
        cases pd with
        | none =>
          intro e he
          simp at he
        | some d =>
          intro e he
          have he2 : e = ⟨d.price, now⟩ := by simpa using he.symm
          rw [he2]
          exact priceOrZero_some d
    · intro d hd
      subst hd
      exact ⟨rfl, priceOrZero_some d⟩
  · intro st u i h p hp
    cases hfind : st.products.find? (matchesIdUser i u) with
    | none =>
      simp only [viewHandler, hfind] at hp
      exact h p hp
    | some q =>
      simp only [viewHandler, hfind] at hp
      rcases mem_updateFirst hp with h1 | ⟨q2, hq2, hpred, heq⟩
      · exact h p h1
      · subst heq
        intro e he
        exact h q2 hq2 e he
  · intro st u i h p hp
    cases hfind : st.products.find? (matchesIdUser i u) with
    | none =>
      simp only [deleteHandler, hfind] at hp
      exact h p hp
    | some q =>
      simp only [deleteHandler, hfind, invalidate_products] at hp
      exact h p (mem_removeFirst hp)
  · intro st u i b hb1 hb2 h p hp
    cases hfind : st.products.find? (matchesIdUser i u) with
    | none =>
      simp only [updateHandler, hfind] at hp
      exact h p hp
    | some q =>
      simp only [updateHandler, hfind, invalidate_products] at hp
      rcases mem_updateFirst hp with h1 | ⟨q2, hq2, hpred, heq⟩
      · exact h p h1
      · have hph : (applySet b q2).priceHistory = q2.priceHistory := by
          simp [applySet, hb2]
        have hcp : (applySet b q2).currentPrice = q2.currentPrice := by
          simp [applySet, hb1]
        subst heq
        intro e he
        rw [hph] at he
        rw [hcp]
        exact h q2 hq2 e he

/-- Concrete instantiation of `claim_C1_price_history_amended`. -/
theorem claim_C1_amended_witness :
    storeInv ((createHandler ⟨[], none⟩ 1 ⟨"n", "u", "p", 50⟩ (some ⟨19.99⟩) 7 10).2)
    ∧ (createHandler ⟨[], none⟩ 1 ⟨"n", "u", "p", 50⟩
        (some ⟨19.99⟩) 7 10).1.product.priceHistory = [⟨19.99, 10⟩] := by
  have h := claim_C1_price_history_amended.1 ⟨[], none⟩ 1 ⟨"n", "u", "p", 50⟩
      (some ⟨19.99⟩) 7 10 (fun p hp => absurd hp (List.not_mem_nil p))
  exact ⟨h.1, (h.2 ⟨19.99⟩ rfl).1⟩
